import Mathlib

/-!
Verification of the login-checker strategies of `src/login_checker.py`.

Identifiers are Python strings: opaque, hashable, linearly ordered values,
modelled by a type `α` with `[LinearOrder α]`.  Python lists become Lean
lists, Python sets become duplicate-free Lean lists used through membership,
Python integer counters become `Nat`.

The two probabilistic filters are external libraries (`pybloom_live` and
`cuckoo_filter`), so they are modelled from the spec where noted; everything
else is translated directly from `src/login_checker.py`.
-/

namespace LoginCheck

/-- One externally visible operation on a Checker. -/
inductive Op (α : Type) where
  | add (x : α)
  | check (x : α)

/-- Outcome of an add-if-absent call: accepted (Python `True`), duplicate
(Python `False`), or the capacity-exceeded failure that the fingerprint-table
insertion can raise. -/
inductive AddOutcome where
  | accepted
  | duplicate
  | capacityFailure
deriving DecidableEq

/-- The capacity-exceeded condition signalled by the cuckoo filter's insert. -/
inductive CapacityExceeded where
  | capacityExceeded
deriving DecidableEq

/-- Python `set.add`: insert the element if absent, no-op if present. -/
def setAdd {α : Type} [DecidableEq α] (l : List α) (x : α) : List α :=
  if x ∈ l then l else l ++ [x]

/-! ### ListLinearSearchChecker (`src/login_checker.py` lines 44-82) -/

/-- State of `ListLinearSearchChecker`: the base-class counters plus the
login list. -/
structure ListLinearSearchChecker (α : Type) where
  comparisons : Nat
  login_count : Nat
  logins : List α
deriving DecidableEq

/-- Fresh `ListLinearSearchChecker()`: counters 0, empty list. -/
def llFresh {α : Type} : ListLinearSearchChecker α := ⟨0, 0, []⟩

/-- The `for login in self.logins` scan shared by `add_login` and
`check_exists`: returns the number of comparisons charged and whether a
matching element was found. -/
def linearScan {α : Type} [DecidableEq α] (logins : List α) (name : α) :
    Nat × Bool :=
  match logins with
  | [] => (0, false)
  | l :: rest =>
    if l = name then (1, true)
    else
      let r := linearScan rest name
      (r.1 + 1, r.2)

/-- `ListLinearSearchChecker.add_login`. -/
def llAdd {α : Type} [DecidableEq α] (s : ListLinearSearchChecker α)
    (name : α) : ListLinearSearchChecker α × Bool :=
  let r := linearScan s.logins name
  if r.2 then ({ s with comparisons := s.comparisons + r.1 }, false)
  else
    (⟨s.comparisons + r.1, s.login_count + 1, s.logins ++ [name]⟩, true)

/-- `ListLinearSearchChecker.check_exists`. -/
def llCheck {α : Type} [DecidableEq α] (s : ListLinearSearchChecker α)
    (name : α) : ListLinearSearchChecker α × Bool :=
  let r := linearScan s.logins name
  ({ s with comparisons := s.comparisons + r.1 }, r.2)

/-! ### SortedArrayBinarySearchChecker (`src/login_checker.py` lines 84-134) -/

/-- State of `SortedArrayBinarySearchChecker`. -/
structure SortedArrayBinarySearchChecker (α : Type) where
  comparisons : Nat
  login_count : Nat
  logins : List α
deriving DecidableEq

/-- Fresh `SortedArrayBinarySearchChecker()`. -/
def saFresh {α : Type} : SortedArrayBinarySearchChecker α := ⟨0, 0, []⟩

/-- Result of the binary-search loop: the target was found, or the loop
exited with insertion point `left`. -/
inductive BinResult where
  | found
  | insertAt (i : Nat)
deriving DecidableEq

/-- The `while left <= right` binary-search loop shared by `add_login` and
`check_exists`.  `left` starts at 0 and never goes negative, so it is a
`Nat`; `right` starts at `len - 1` and can reach `-1`, so it is an `Int`.
`mid = (left + right) // 2` only evaluates when `0 ≤ left ≤ right`, where
Python floor division agrees with `Nat` division.  The `none` branch of the
list lookup is unreachable while `right < logins.length`.  The window
`right + 1 - left` shrinks on every pass, so the loop performs at most
`window` iterations; it is written with structural recursion on a `fuel`
bound that callers set above the initial window (`length + 1`), making the
out-of-fuel branch unreachable.  Returns the comparisons charged and the
outcome. -/
def binSearchGo {α : Type} [LinearOrder α] (logins : List α) (name : α) :
    (fuel left : Nat) → (right : Int) → (comps : Nat) → Nat × BinResult
  | 0, left, _, comps => (comps, .insertAt left)
  | fuel + 1, left, right, comps =>
    if (left : Int) ≤ right then
      match logins[(left + right.toNat) / 2]? with
      | none => (comps + 1, .insertAt left)
      | some v =>
        if v = name then (comps + 1, .found)
        else if v < name then
          binSearchGo logins name fuel ((left + right.toNat) / 2 + 1)
            right (comps + 1)
        else
          binSearchGo logins name fuel left
            (((left + right.toNat) / 2 : Nat) - 1) (comps + 1)
    else (comps, .insertAt left)

/-- `SortedArrayBinarySearchChecker.add_login`.  `self.logins.insert(left,
name)` is take-prefix ++ element ++ drop-suffix. -/
def saAdd {α : Type} [LinearOrder α] (s : SortedArrayBinarySearchChecker α)
    (name : α) : SortedArrayBinarySearchChecker α × Bool :=
  match binSearchGo s.logins name (s.logins.length + 1) 0
      ((s.logins.length : Int) - 1) 0 with
  | (n, .found) => ({ s with comparisons := s.comparisons + n }, false)
  | (n, .insertAt i) =>
    (⟨s.comparisons + n, s.login_count + 1,
      s.logins.take i ++ name :: s.logins.drop i⟩, true)

/-- `SortedArrayBinarySearchChecker.check_exists`. -/
def saCheck {α : Type} [LinearOrder α] (s : SortedArrayBinarySearchChecker α)
    (name : α) : SortedArrayBinarySearchChecker α × Bool :=
  match binSearchGo s.logins name (s.logins.length + 1) 0
      ((s.logins.length : Int) - 1) 0 with
  | (n, .found) => ({ s with comparisons := s.comparisons + n }, true)
  | (n, .insertAt _) => ({ s with comparisons := s.comparisons + n }, false)

/-! ### HashTableChecker (`src/login_checker.py` lines 136-170) -/

/-- State of `HashTableChecker`; the Python set is a duplicate-free list
used only through membership. -/
structure HashTableChecker (α : Type) where
  comparisons : Nat
  login_count : Nat
  logins : List α
deriving DecidableEq

/-- Fresh `HashTableChecker()`. -/
def htFresh {α : Type} : HashTableChecker α := ⟨0, 0, []⟩

/-- `HashTableChecker.add_login`. -/
def htAdd {α : Type} [DecidableEq α] (s : HashTableChecker α) (name : α) :
    HashTableChecker α × Bool :=
  if name ∈ s.logins then ({ s with comparisons := s.comparisons + 1 }, false)
  else
    (⟨s.comparisons + 1, s.login_count + 1, setAdd s.logins name⟩, true)

/-- `HashTableChecker.check_exists`. -/
def htCheck {α : Type} [DecidableEq α] (s : HashTableChecker α) (name : α) :
    HashTableChecker α × Bool :=
  ({ s with comparisons := s.comparisons + 1 }, decide (name ∈ s.logins))

/-! ### BloomFilterChecker (`src/login_checker.py` lines 172-214) -/

/-- Modelled from the spec: the `pybloom_live.BloomFilter` library is not
part of this repository.  Per §3 a probabilistic filter is a set abstraction
with insert and might-contain, a designed false-positive probability, and no
false negatives; it never stores identifiers, only derived hash information.
The model keeps the insertion history and an oracle `falsePos` that, given
the history, says which never-inserted items the hashed bit positions happen
to report as possibly present — any deterministic no-false-negative filter
is an instance for some oracle. -/
structure BloomFilter (α : Type) where
  capacity : Int
  error_rate : ℚ
  falsePos : List α → α → Bool
  hist : List α

/-- The configuration error raised for a malformed filter configuration. -/
inductive ConfigError where
  | malformedConfig
deriving DecidableEq

/-- Modelled from the spec: per §7 a filter "configured with non-positive
capacity or an out-of-range false-positive probability must fail at
construction"; the validation lives in the external library's constructor.
`error_rate` is a rational standing for the Python float. -/
def bloomFilterNew {α : Type} (falsePos : List α → α → Bool) (capacity : Int)
    (error_rate : ℚ) : Except ConfigError (BloomFilter α) :=
  if 0 < error_rate ∧ error_rate < 1 ∧ 0 < capacity then
    .ok ⟨capacity, error_rate, falsePos, []⟩
  else .error .malformedConfig

/-- `name in self.bloom`: true for everything inserted (no false negatives)
and for the oracle's false positives. -/
def bloomMightContain {α : Type} [DecidableEq α] (f : BloomFilter α)
    (x : α) : Bool :=
  decide (x ∈ f.hist) || f.falsePos f.hist x

/-- `self.bloom.add(name)`: record the insertion. -/
def bloomInsert {α : Type} (f : BloomFilter α) (x : α) : BloomFilter α :=
  { f with hist := f.hist ++ [x] }

/-- State of `BloomFilterChecker`: counters, the filter, and the exact
backing set. -/
structure BloomFilterChecker (α : Type) where
  comparisons : Nat
  login_count : Nat
  bloom : BloomFilter α
  logins : List α

/-- `BloomFilterChecker.__init__(capacity, error_rate)`: forwards both
arguments to the library filter constructor, whose validation failure
propagates out of construction. -/
def bloomCheckerInit {α : Type} (falsePos : List α → α → Bool)
    (capacity : Int) (error_rate : ℚ) :
    Except ConfigError (BloomFilterChecker α) :=
  match bloomFilterNew falsePos capacity error_rate with
  | .ok f => .ok ⟨0, 0, f, []⟩
  | .error e => .error e

/-- A fresh `BloomFilterChecker()` built with the default arguments
`capacity=1000000, error_rate=0.001` (which pass validation). -/
def bloomFresh {α : Type} (falsePos : List α → α → Bool) :
    BloomFilterChecker α :=
  ⟨0, 0, ⟨1000000, 1 / 1000, falsePos, []⟩, []⟩

/-- `BloomFilterChecker.add_login`. -/
def bloomAdd {α : Type} [DecidableEq α] (s : BloomFilterChecker α)
    (name : α) : BloomFilterChecker α × Bool :=
  if bloomMightContain s.bloom name then
    if name ∈ s.logins then
      ({ s with comparisons := s.comparisons + 1 + 1 }, false)
    else
      (⟨s.comparisons + 1 + 1, s.login_count + 1,
        bloomInsert s.bloom name, setAdd s.logins name⟩, true)
  else
    (⟨s.comparisons + 1, s.login_count + 1,
      bloomInsert s.bloom name, setAdd s.logins name⟩, true)

/-- `BloomFilterChecker.check_exists`. -/
def bloomCheck {α : Type} [DecidableEq α] (s : BloomFilterChecker α)
    (name : α) : BloomFilterChecker α × Bool :=
  if bloomMightContain s.bloom name then
    ({ s with comparisons := s.comparisons + 1 + 1 },
      decide (name ∈ s.logins))
  else
    ({ s with comparisons := s.comparisons + 1 }, false)

/-! ### CuckooFilterChecker (`src/login_checker.py` lines 216-258) -/

/-- Modelled from the spec: the `cuckoo_filter.CuckooFilter` library is not
part of this repository.  Per §4.6 it is a fixed-size table of
fixed-capacity buckets storing short fingerprints derived from each
identifier's hash; each item has a candidate bucket pair.  `fingerprint`,
`hash1` and `hash2` stand for the library's hash derivations; stored
fingerprints are reduced to `fingerprint_size` bits. -/
structure CuckooFilter (α : Type) where
  table_size : Nat
  bucket_size : Nat
  fingerprint_size : Nat
  fingerprint : α → Nat
  hash1 : α → Nat
  hash2 : α → Nat
  buckets : List (List Nat)

/-- The fingerprint stored for `x`: `fingerprint_size` bits of its hash. -/
def cfFp {α : Type} (f : CuckooFilter α) (x : α) : Nat :=
  f.fingerprint x % 2 ^ f.fingerprint_size

/-- First candidate bucket index of `x`. -/
def cfIdx1 {α : Type} (f : CuckooFilter α) (x : α) : Nat :=
  f.hash1 x % f.table_size

/-- Second candidate bucket index of `x`. -/
def cfIdx2 {α : Type} (f : CuckooFilter α) (x : α) : Nat :=
  f.hash2 x % f.table_size

/-- The bucket at index `i` (in range whenever `i < table_size` and the
table is well formed). -/
def cfBucket {α : Type} (f : CuckooFilter α) (i : Nat) : List Nat :=
  f.buckets.getD i []

/-- `name in self.cuckoo`: the stored fingerprint is found in either
candidate bucket.  False positives arise from fingerprint collisions; no
false negatives once inserted. -/
def cfMightContain {α : Type} (f : CuckooFilter α) (x : α) : Bool :=
  decide (cfFp f x ∈ cfBucket f (cfIdx1 f x)) ||
    decide (cfFp f x ∈ cfBucket f (cfIdx2 f x))

/-- Modelled from the spec: `self.cuckoo.insert(name)` places the
fingerprint in the first candidate bucket with free capacity, else the
second; per §4.6 insertion into a full bucket pair, without a
displacement/relocation strategy, fails explicitly with a
capacity-exceeded condition. -/
def cfInsert {α : Type} (f : CuckooFilter α) (x : α) :
    Except CapacityExceeded (CuckooFilter α) :=
  if (cfBucket f (cfIdx1 f x)).length < f.bucket_size then
    .ok { f with
      buckets := f.buckets.set (cfIdx1 f x)
        (cfBucket f (cfIdx1 f x) ++ [cfFp f x]) }
  else if (cfBucket f (cfIdx2 f x)).length < f.bucket_size then
    .ok { f with
      buckets := f.buckets.set (cfIdx2 f x)
        (cfBucket f (cfIdx2 f x) ++ [cfFp f x]) }
  else .error .capacityExceeded

/-- State of `CuckooFilterChecker`: counters, the fingerprint table, and
the exact backing set. -/
structure CuckooFilterChecker (α : Type) where
  comparisons : Nat
  login_count : Nat
  cuckoo : CuckooFilter α
  logins : List α

/-- `CuckooFilterChecker.__init__(capacity, error_rate)`: both parameters
are ignored (the docstring marks them "(unused)"); the filter is always
built with `table_size=10000, bucket_size=4, fingerprint_size=8`. -/
def cuckooCheckerInit {α : Type} (fingerprint hash1 hash2 : α → Nat)
    (capacity : Int) (error_rate : ℚ) : CuckooFilterChecker α :=
  ⟨0, 0,
    ⟨10000, 4, 8, fingerprint, hash1, hash2, List.replicate 10000 []⟩, []⟩

/-- A fresh `CuckooFilterChecker()` built with the default arguments. -/
def cuckooFresh {α : Type} (fingerprint hash1 hash2 : α → Nat) :
    CuckooFilterChecker α :=
  cuckooCheckerInit fingerprint hash1 hash2 1000000 (1 / 1000)

/-- `CuckooFilterChecker.add_login`.  The library insert's
capacity-exceeded failure propagates (`Except.error`); the comparisons
already charged remain, and nothing else has been updated yet. -/
def cuckooAdd {α : Type} [DecidableEq α] (s : CuckooFilterChecker α)
    (name : α) : CuckooFilterChecker α × Except CapacityExceeded Bool :=
  if cfMightContain s.cuckoo name then
    if name ∈ s.logins then
      ({ s with comparisons := s.comparisons + 1 + 1 }, .ok false)
    else
      match cfInsert s.cuckoo name with
      | .ok f =>
        (⟨s.comparisons + 1 + 1, s.login_count + 1, f,
          setAdd s.logins name⟩, .ok true)
      | .error e =>
        ({ s with comparisons := s.comparisons + 1 + 1 }, .error e)
  else
    match cfInsert s.cuckoo name with
    | .ok f =>
      (⟨s.comparisons + 1, s.login_count + 1, f,
        setAdd s.logins name⟩, .ok true)
    | .error e =>
      ({ s with comparisons := s.comparisons + 1 }, .error e)

/-- `CuckooFilterChecker.check_exists`. -/
def cuckooCheck {α : Type} [DecidableEq α] (s : CuckooFilterChecker α)
    (name : α) : CuckooFilterChecker α × Bool :=
  if cfMightContain s.cuckoo name then
    ({ s with comparisons := s.comparisons + 1 + 1 },
      decide (name ∈ s.logins))
  else
    ({ s with comparisons := s.comparisons + 1 }, false)

/-! ### Trace semantics

A Checker is driven through a sequence of `add_login` / `check_exists`
calls.  `Trace.run` replays a sequence from a state; `Trace.accepted` lists
the identifiers whose `add_login` returned true, in order.  Each strategy
instantiates `addFn` with its `add_login` (outcomes mapped onto
`AddOutcome`) and `checkFn` with its `check_exists`. -/

namespace Trace

variable {α S : Type}

/-- Replay a sequence of operations from state `s`. -/
def run (addFn : S → α → S × AddOutcome) (checkFn : S → α → S × Bool)
    (s : S) : List (Op α) → S
  | [] => s
  | Op.add x :: ops => run addFn checkFn (addFn s x).1 ops
  | Op.check x :: ops => run addFn checkFn (checkFn s x).1 ops

/-- The identifiers accepted (add returned true) while replaying `ops`
from `s`, in order of acceptance. -/
def accepted (addFn : S → α → S × AddOutcome) (checkFn : S → α → S × Bool)
    (s : S) : List (Op α) → List α
  | [] => []
  | Op.add x :: ops =>
    (if (addFn s x).2 = .accepted then [x] else []) ++
      accepted addFn checkFn (addFn s x).1 ops
  | Op.check x :: ops => accepted addFn checkFn (checkFn s x).1 ops

/-- What the trace lemmas need of a strategy: an invariant `Inv` preserved
by both operations, an abstract membership `mem`, a count `count`, exact
behaviour of `check_exists` on `Inv` states, and the add-if-absent contract
(duplicate on members; on non-members, either accept and extend `mem`, or
fail leaving `mem` and `count` alone). -/
structure Contract (addFn : S → α → S × AddOutcome)
    (checkFn : S → α → S × Bool) (Inv : S → Prop) (mem : S → α → Prop)
    (count : S → Nat) : Prop where
  inv_add : ∀ s x, Inv s → Inv (addFn s x).1
  inv_check : ∀ s x, Inv s → Inv (checkFn s x).1
  check_mem : ∀ s x y, mem (checkFn s x).1 y ↔ mem s y
  check_count : ∀ s x, count (checkFn s x).1 = count s
  check_correct : ∀ s x, Inv s → ((checkFn s x).2 = true ↔ mem s x)
  add_dup : ∀ s x, Inv s → mem s x →
    (addFn s x).2 = .duplicate ∧ (∀ y, mem (addFn s x).1 y ↔ mem s y) ∧
      count (addFn s x).1 = count s
  add_new : ∀ s x, Inv s → ¬ mem s x →
    ((addFn s x).2 = .accepted ∧
        (∀ y, mem (addFn s x).1 y ↔ (mem s y ∨ y = x)) ∧
        count (addFn s x).1 = count s + 1) ∨
      ((addFn s x).2 = .capacityFailure ∧
        (∀ y, mem (addFn s x).1 y ↔ mem s y) ∧
        count (addFn s x).1 = count s)

variable {addFn : S → α → S × AddOutcome} {checkFn : S → α → S × Bool}
variable {Inv : S → Prop} {mem : S → α → Prop} {count : S → Nat}

theorem Contract.add_mem (C : Contract addFn checkFn Inv mem count)
    (s : S) (x : α) (hs : Inv s) :
    ∀ y, mem (addFn s x).1 y ↔
      (mem s y ∨ ((addFn s x).2 = .accepted ∧ y = x)) := by
  intro y
  by_cases hx : mem s x
  · obtain ⟨ho, hm, _⟩ := C.add_dup s x hs hx
    rw [hm, ho]
    simp
  · rcases C.add_new s x hs hx with ⟨ho, hm, _⟩ | ⟨ho, hm, _⟩
    · rw [hm, ho]
      simp
    · rw [hm, ho]
      simp

theorem Contract.run_inv (C : Contract addFn checkFn Inv mem count)
    (ops : List (Op α)) (s : S) (hs : Inv s) :
    Inv (run addFn checkFn s ops) := by
  induction ops generalizing s with
  | nil => exact hs
  | cons op ops ih =>
    cases op with
    | add x => exact ih _ (C.inv_add s x hs)
    | check x => exact ih _ (C.inv_check s x hs)

theorem Contract.mem_run (C : Contract addFn checkFn Inv mem count)
    (ops : List (Op α)) (s : S) (hs : Inv s) (y : α) :
    mem (run addFn checkFn s ops) y ↔
      (mem s y ∨ y ∈ accepted addFn checkFn s ops) := by
  induction ops generalizing s with
  | nil => simp [run, accepted]
  | cons op ops ih =>
    cases op with
    | add x =>
      rw [run, accepted, ih _ (C.inv_add s x hs), C.add_mem s x hs]
      by_cases ho : (addFn s x).2 = .accepted <;> simp [ho] <;> tauto
    | check x =>
      rw [run, accepted, ih _ (C.inv_check s x hs), C.check_mem]

theorem Contract.count_run (C : Contract addFn checkFn Inv mem count)
    (ops : List (Op α)) (s : S) (hs : Inv s) :
    count (run addFn checkFn s ops) =
      count s + (accepted addFn checkFn s ops).length := by
  induction ops generalizing s with
  | nil => simp [run, accepted]
  | cons op ops ih =>
    cases op with
    | add x =>
      rw [run, accepted, ih _ (C.inv_add s x hs)]
      by_cases hx : mem s x
      · obtain ⟨ho, _, hc⟩ := C.add_dup s x hs hx
        simp [ho, hc]
      · rcases C.add_new s x hs hx with ⟨ho, _, hc⟩ | ⟨ho, _, hc⟩ <;>
          simp [ho, hc] <;> omega
    | check x =>
      rw [run, accepted, ih _ (C.inv_check s x hs), C.check_count]

theorem Contract.accepted_nodup (C : Contract addFn checkFn Inv mem count)
    (ops : List (Op α)) (s : S) (hs : Inv s) :
    (accepted addFn checkFn s ops).Nodup ∧
      ∀ y ∈ accepted addFn checkFn s ops, ¬ mem s y := by
  induction ops generalizing s with
  | nil => simp [accepted]
  | cons op ops ih =>
    cases op with
    | add x =>
      obtain ⟨hnd, hni⟩ := ih (addFn s x).1 (C.inv_add s x hs)
      by_cases ho : (addFn s x).2 = .accepted
      · have hxmem : ¬ mem s x := by
          intro hx
          exact absurd ho (by simp [(C.add_dup s x hs hx).1])
        have hmem := C.add_mem s x hs
        constructor
        · rw [accepted]
          simp only [ho, if_pos, List.singleton_append, List.nodup_cons]
          refine ⟨fun hx => hni x hx ?_, hnd⟩
          rw [hmem x]
          simp [ho]
        · intro y hy hymem
          rw [accepted] at hy
          simp only [ho, if_pos, List.singleton_append, List.mem_cons] at hy
          rcases hy with rfl | hy
          · exact hxmem hymem
          · exact hni y hy ((hmem y).2 (Or.inl hymem))
      · constructor
        · rw [accepted]
          simp [ho, hnd]
        · intro y hy hymem
          rw [accepted] at hy
          simp only [ho, if_neg, List.nil_append] at hy
          refine hni y (by simpa [ho] using hy) ?_
          rw [C.add_mem s x hs y]
          exact Or.inl hymem
    | check x =>
      obtain ⟨hnd, hni⟩ := ih (checkFn s x).1 (C.inv_check s x hs)
      rw [accepted]
      exact ⟨hnd, fun y hy hymem => hni y hy ((C.check_mem s x y).2 hymem)⟩

theorem Contract.check_run (C : Contract addFn checkFn Inv mem count)
    (ops : List (Op α)) (s : S) (hs : Inv s) (x : α) :
    (checkFn (run addFn checkFn s ops) x).2 = true ↔
      (mem s x ∨ x ∈ accepted addFn checkFn s ops) := by
  rw [C.check_correct _ x (C.run_inv ops s hs), C.mem_run ops s hs]

end Trace

/-! ### Key facts about the basic operations -/

theorem setAdd_mem {α : Type} [DecidableEq α] (l : List α) (x y : α) :
    y ∈ setAdd l x ↔ (y ∈ l ∨ y = x) := by
  unfold setAdd
  by_cases hx : x ∈ l
  · simp only [if_pos hx]
    constructor
    · exact Or.inl
    · rintro (h | rfl) <;> [exact h; exact hx]
  · simp [if_neg hx]

theorem linearScan_found {α : Type} [DecidableEq α] (l : List α) (x : α) :
    (linearScan l x).2 = decide (x ∈ l) := by
  induction l with
  | nil => simp [linearScan]
  | cons a rest ih =>
    rw [linearScan]
    by_cases ha : a = x
    · simp [ha]
    · have hax : ¬ x = a := fun h => ha h.symm
      simp [ha, ih, hax]

/-! ### Contract instance: ListLinearSearchChecker -/

/-- `llAdd` with its boolean result mapped onto `AddOutcome` (this strategy
never fails). -/
def llAddO {α : Type} [DecidableEq α] (s : ListLinearSearchChecker α)
    (x : α) : ListLinearSearchChecker α × AddOutcome :=
  ((llAdd s x).1, if (llAdd s x).2 then .accepted else .duplicate)

/-- Replaying a trace on a fresh `ListLinearSearchChecker`. -/
def llRunOps {α : Type} [DecidableEq α] (ops : List (Op α)) :
    ListLinearSearchChecker α :=
  Trace.run llAddO llCheck llFresh ops

/-- The identifiers a fresh `ListLinearSearchChecker` accepts along `ops`. -/
def llAccepted {α : Type} [DecidableEq α] (ops : List (Op α)) : List α :=
  Trace.accepted llAddO llCheck llFresh ops

theorem llContract {α : Type} [DecidableEq α] :
    Trace.Contract (α := α) llAddO llCheck (fun _ => True)
      (fun s y => y ∈ s.logins) (fun s => s.login_count) := by
  constructor
  · intro _ _ _; trivial
  · intro _ _ _; trivial
  · intro s x y; simp [llCheck]
  · intro s x; simp [llCheck]
  · intro s x _
    simp [llCheck, linearScan_found]
  · intro s x _ hx
    have : (linearScan s.logins x).2 = true := by
      simp [linearScan_found, hx]
    simp [llAddO, llAdd, this]
  · intro s x _ hx
    left
    have : (linearScan s.logins x).2 = false := by
      simp [linearScan_found, hx]
    simp [llAddO, llAdd, this]

/-! ### Contract instance: HashTableChecker -/

/-- `htAdd` with its boolean result mapped onto `AddOutcome`. -/
def htAddO {α : Type} [DecidableEq α] (s : HashTableChecker α) (x : α) :
    HashTableChecker α × AddOutcome :=
  ((htAdd s x).1, if (htAdd s x).2 then .accepted else .duplicate)

/-- Replaying a trace on a fresh `HashTableChecker`. -/
def htRunOps {α : Type} [DecidableEq α] (ops : List (Op α)) :
    HashTableChecker α :=
  Trace.run htAddO htCheck htFresh ops

/-- The identifiers a fresh `HashTableChecker` accepts along `ops`. -/
def htAccepted {α : Type} [DecidableEq α] (ops : List (Op α)) : List α :=
  Trace.accepted htAddO htCheck htFresh ops

theorem htContract {α : Type} [DecidableEq α] :
    Trace.Contract (α := α) htAddO htCheck (fun _ => True)
      (fun s y => y ∈ s.logins) (fun s => s.login_count) := by
  constructor
  · intro _ _ _; trivial
  · intro _ _ _; trivial
  · intro s x y; simp [htCheck]
  · intro s x; simp [htCheck]
  · intro s x _
    simp [htCheck]
  · intro s x _ hx
    simp [htAddO, htAdd, hx]
  · intro s x _ hx
    left
    simp [htAddO, htAdd, hx, setAdd_mem]

/-! ### Contract instance: BloomFilterChecker -/

/-- `bloomAdd` with its boolean result mapped onto `AddOutcome` (the model
of the bit-array filter's insert never fails). -/
def bloomAddO {α : Type} [DecidableEq α] (s : BloomFilterChecker α)
    (x : α) : BloomFilterChecker α × AddOutcome :=
  ((bloomAdd s x).1, if (bloomAdd s x).2 then .accepted else .duplicate)

/-- Replaying a trace on a fresh `BloomFilterChecker` (default
configuration, false-positive oracle `fp`). -/
def bloomRunOps {α : Type} [DecidableEq α] (fp : List α → α → Bool)
    (ops : List (Op α)) : BloomFilterChecker α :=
  Trace.run bloomAddO bloomCheck (bloomFresh fp) ops

/-- The identifiers a fresh `BloomFilterChecker` accepts along `ops`. -/
def bloomAccepted {α : Type} [DecidableEq α] (fp : List α → α → Bool)
    (ops : List (Op α)) : List α :=
  Trace.accepted bloomAddO bloomCheck (bloomFresh fp) ops

/-- The invariant tying the Bloom strategy's backing set to the filter:
every accepted identifier is in the filter's insertion history. -/
def bloomInv {α : Type} (s : BloomFilterChecker α) : Prop :=
  ∀ y ∈ s.logins, y ∈ s.bloom.hist

theorem bloomContract {α : Type} [DecidableEq α] :
    Trace.Contract (α := α) bloomAddO bloomCheck bloomInv
      (fun s y => y ∈ s.logins) (fun s => s.login_count) := by
  constructor
  · intro s x hs
    by_cases hm : bloomMightContain s.bloom x
    · by_cases hx : x ∈ s.logins
      · simpa [bloomAddO, bloomAdd, hm, hx, bloomInv] using hs
      · intro y hy
        simp only [bloomAddO, bloomAdd, hm, hx, if_pos, if_neg,
          if_true, if_false] at hy ⊢
        rw [setAdd_mem] at hy
        rcases hy with hy | rfl
        · exact List.mem_append_left _ (hs y hy)
        · exact List.mem_append_right _ (by simp [bloomInsert])
    · intro y hy
      simp only [bloomAddO, bloomAdd, hm, if_neg, if_false,
        Bool.false_eq_true] at hy ⊢
      rw [setAdd_mem] at hy
      rcases hy with hy | rfl
      · exact List.mem_append_left _ (hs y hy)
      · exact List.mem_append_right _ (by simp [bloomInsert])
  · intro s x hs
    by_cases hm : bloomMightContain s.bloom x <;>
      simpa [bloomCheck, hm, bloomInv] using hs
  · intro s x y
    by_cases hm : bloomMightContain s.bloom x <;> simp [bloomCheck, hm]
  · intro s x
    by_cases hm : bloomMightContain s.bloom x <;> simp [bloomCheck, hm]
  · intro s x hs
    by_cases hm : bloomMightContain s.bloom x
    · simp [bloomCheck, hm]
    · have hx : x ∉ s.logins := by
        intro hx
        have : x ∈ s.bloom.hist := hs x hx
        simp [bloomMightContain, this] at hm
      simp [bloomCheck, hm, hx]
  · intro s x hs hx
    have hm : bloomMightContain s.bloom x := by
      simp [bloomMightContain, hs x hx]
    simp [bloomAddO, bloomAdd, hm, hx]
  · intro s x _ hx
    left
    by_cases hm : bloomMightContain s.bloom x <;>
      simp [bloomAddO, bloomAdd, hm, hx, setAdd_mem]

/-! ### Contract instance: CuckooFilterChecker -/

theorem cfBucket_set {α : Type} (f : CuckooFilter α) (i : Nat)
    (b : List Nat) (j : Nat) :
    cfBucket { f with buckets := f.buckets.set i b } j =
      if i = j ∧ i < f.buckets.length then b else cfBucket f j := by
  unfold cfBucket
  by_cases hij : i = j
  · subst hij
    by_cases hlen : i < f.buckets.length
    · simp only [List.getD_eq_getElem?_getD,
        List.getElem?_set_eq_of_lt b hlen, hlen, and_true, if_pos]
      rfl
    · rw [List.set_eq_of_length_le (by omega)]
      simp [hlen]
  · simp only [List.getD_eq_getElem?_getD, List.getElem?_set_ne hij,
      hij, false_and, if_neg, not_false_iff]

theorem cfMightContain_of_mem1 {α : Type} (f : CuckooFilter α) (x : α)
    (h : cfFp f x ∈ cfBucket f (cfIdx1 f x)) : cfMightContain f x = true := by
  simp [cfMightContain, h]

theorem cfMightContain_of_mem2 {α : Type} (f : CuckooFilter α) (x : α)
    (h : cfFp f x ∈ cfBucket f (cfIdx2 f x)) : cfMightContain f x = true := by
  simp [cfMightContain, h]

theorem cfInsert_ok {α : Type} (f : CuckooFilter α) (x : α)
    (f' : CuckooFilter α) (h : cfInsert f x = .ok f') :
    f'.table_size = f.table_size ∧ f'.bucket_size = f.bucket_size ∧
      f'.fingerprint_size = f.fingerprint_size ∧
      f'.fingerprint = f.fingerprint ∧ f'.hash1 = f.hash1 ∧
      f'.hash2 = f.hash2 ∧ f'.buckets.length = f.buckets.length ∧
      (∀ j, cfBucket f j ⊆ cfBucket f' j) ∧
      (f.buckets.length = f.table_size → 0 < f.table_size →
        cfMightContain f' x = true) := by
  unfold cfInsert at h
  split at h
  case isTrue h1 =>
    rw [Except.ok.injEq] at h
    subst h
    refine ⟨rfl, rfl, rfl, rfl, rfl, rfl, by simp, ?_, ?_⟩
    · intro j y hy
      rw [cfBucket_set]
      split
      · exact List.mem_append_left _ (by simpa [‹cfIdx1 f x = j ∧ _›.1] using hy)
      · exact hy
    · intro hlen hpos
      have hidx : cfIdx1 f x < f.buckets.length := by
        rw [hlen]
        exact Nat.mod_lt _ hpos
      apply cfMightContain_of_mem1
      rw [cfBucket_set]
      simp only [cfIdx1] at hidx
      simp [cfFp, cfIdx1, hidx]
  case isFalse h1 =>
    split at h
    case isTrue h2 =>
      rw [Except.ok.injEq] at h
      subst h
      refine ⟨rfl, rfl, rfl, rfl, rfl, rfl, by simp, ?_, ?_⟩
      · intro j y hy
        rw [cfBucket_set]
        split
        · exact List.mem_append_left _
            (by simpa [‹cfIdx2 f x = j ∧ _›.1] using hy)
        · exact hy
      · intro hlen hpos
        have hidx : cfIdx2 f x < f.buckets.length := by
          rw [hlen]
          exact Nat.mod_lt _ hpos
        apply cfMightContain_of_mem2
        rw [cfBucket_set]
        simp only [cfIdx2] at hidx
        simp [cfFp, cfIdx2, hidx]
    case isFalse h2 => exact absurd h (by simp)

theorem cfMightContain_mono {α : Type} (f f' : CuckooFilter α) (y : α)
    (hts : f'.table_size = f.table_size)
    (hfs : f'.fingerprint_size = f.fingerprint_size)
    (hfp : f'.fingerprint = f.fingerprint) (h1 : f'.hash1 = f.hash1)
    (h2 : f'.hash2 = f.hash2) (hsub : ∀ j, cfBucket f j ⊆ cfBucket f' j)
    (h : cfMightContain f y = true) : cfMightContain f' y = true := by
  unfold cfMightContain cfFp cfIdx1 cfIdx2 at h ⊢
  rw [hts, hfs, hfp, h1, h2]
  simp only [Bool.or_eq_true, decide_eq_true_eq] at h ⊢
  rcases h with h | h
  · exact Or.inl (hsub _ h)
  · exact Or.inr (hsub _ h)

/-- `cuckooAdd` with its result mapped onto `AddOutcome`: `ok true` is
accepted, `ok false` is duplicate, a propagated capacity-exceeded failure
is `capacityFailure`. -/
def cuckooAddO {α : Type} [DecidableEq α] (s : CuckooFilterChecker α)
    (x : α) : CuckooFilterChecker α × AddOutcome :=
  ((cuckooAdd s x).1,
    match (cuckooAdd s x).2 with
    | .ok true => .accepted
    | .ok false => .duplicate
    | .error _ => .capacityFailure)

/-- Replaying a trace on a fresh `CuckooFilterChecker` (hash derivations
`fingerprint`, `hash1`, `hash2`). -/
def cuckooRunOps {α : Type} [DecidableEq α]
    (fingerprint hash1 hash2 : α → Nat) (ops : List (Op α)) :
    CuckooFilterChecker α :=
  Trace.run cuckooAddO cuckooCheck (cuckooFresh fingerprint hash1 hash2) ops

/-- The identifiers a fresh `CuckooFilterChecker` accepts along `ops`. -/
def cuckooAccepted {α : Type} [DecidableEq α]
    (fingerprint hash1 hash2 : α → Nat) (ops : List (Op α)) : List α :=
  Trace.accepted cuckooAddO cuckooCheck
    (cuckooFresh fingerprint hash1 hash2) ops

/-- The invariant of the Cuckoo strategy: the table is well formed and
every accepted identifier is still reported by the filter (no false
negatives). -/
def cuckooInv {α : Type} (s : CuckooFilterChecker α) : Prop :=
  s.cuckoo.buckets.length = s.cuckoo.table_size ∧
    0 < s.cuckoo.table_size ∧
    ∀ y ∈ s.logins, cfMightContain s.cuckoo y = true

theorem cuckooContract {α : Type} [DecidableEq α] :
    Trace.Contract (α := α) cuckooAddO cuckooCheck cuckooInv
      (fun s y => y ∈ s.logins) (fun s => s.login_count) := by
  constructor
  · intro s x hs
    obtain ⟨hlen, hpos, hmem⟩ := hs
    by_cases hm : cfMightContain s.cuckoo x
    · by_cases hx : x ∈ s.logins
      · exact ⟨by simp [cuckooAddO, cuckooAdd, hm, hx, hlen],
          by simpa [cuckooAddO, cuckooAdd, hm, hx] using hpos,
          by simpa [cuckooAddO, cuckooAdd, hm, hx] using hmem⟩
      · rcases hins : cfInsert s.cuckoo x with e | f'
        · exact ⟨by simp [cuckooAddO, cuckooAdd, hm, hx, hins, hlen],
            by simpa [cuckooAddO, cuckooAdd, hm, hx, hins] using hpos,
            by simpa [cuckooAddO, cuckooAdd, hm, hx, hins] using hmem⟩
        · obtain ⟨hts, _, hfs, hfp, h1, h2, hbl, hsub, hnew⟩ :=
            cfInsert_ok s.cuckoo x f' hins
          refine ⟨?_, ?_, ?_⟩
          · simp only [cuckooAddO, cuckooAdd, hm, hx, hins, if_pos,
              if_neg, not_false_iff, if_true]
            rw [hbl, hts, hlen]
          · simpa [cuckooAddO, cuckooAdd, hm, hx, hins, hts] using hpos
          · simp only [cuckooAddO, cuckooAdd, hm, hx, hins, if_pos,
              if_neg, not_false_iff, if_true]
            intro y hy
            rw [setAdd_mem] at hy
            rcases hy with hy | rfl
            · exact cfMightContain_mono _ _ y hts hfs hfp h1 h2 hsub
                (hmem y hy)
            · exact hnew hlen hpos
    · by_cases hx : x ∈ s.logins
      · exact absurd (hmem x hx) (by simp [hm])
      · rcases hins : cfInsert s.cuckoo x with e | f'
        · exact ⟨by simp [cuckooAddO, cuckooAdd, hm, hins, hlen],
            by simpa [cuckooAddO, cuckooAdd, hm, hins] using hpos,
            by simpa [cuckooAddO, cuckooAdd, hm, hins] using hmem⟩
        · obtain ⟨hts, _, hfs, hfp, h1, h2, hbl, hsub, hnew⟩ :=
            cfInsert_ok s.cuckoo x f' hins
          refine ⟨?_, ?_, ?_⟩
          · simp only [cuckooAddO, cuckooAdd, hm, hins, Bool.false_eq_true,
              if_neg, not_false_iff, if_false]
            rw [hbl, hts, hlen]
          · simpa [cuckooAddO, cuckooAdd, hm, hins, hts] using hpos
          · simp only [cuckooAddO, cuckooAdd, hm, hins, Bool.false_eq_true,
              if_neg, not_false_iff, if_false]
            intro y hy
            rw [setAdd_mem] at hy
            rcases hy with hy | rfl
            · exact cfMightContain_mono _ _ y hts hfs hfp h1 h2 hsub
                (hmem y hy)
            · exact hnew hlen hpos
  · intro s x hs
    obtain ⟨hlen, hpos, hmem⟩ := hs
    by_cases hm : cfMightContain s.cuckoo x <;>
      exact ⟨by simp [cuckooCheck, hm, hlen],
        by simpa [cuckooCheck, hm] using hpos,
        by simpa [cuckooCheck, hm] using hmem⟩
  · intro s x y
    by_cases hm : cfMightContain s.cuckoo x <;> simp [cuckooCheck, hm]
  · intro s x
    by_cases hm : cfMightContain s.cuckoo x <;> simp [cuckooCheck, hm]
  · intro s x hs
    by_cases hm : cfMightContain s.cuckoo x
    · simp [cuckooCheck, hm]
    · have hx : x ∉ s.logins := fun hx => absurd (hs.2.2 x hx) (by simp [hm])
      simp [cuckooCheck, hm, hx]
  · intro s x hs hx
    have hm : cfMightContain s.cuckoo x := hs.2.2 x hx
    simp [cuckooAddO, cuckooAdd, hm, hx]
  · intro s x hs hx
    by_cases hm : cfMightContain s.cuckoo x
    · rcases hins : cfInsert s.cuckoo x with e | f'
      · right
        simp [cuckooAddO, cuckooAdd, hm, hx, hins]
      · left
        simp [cuckooAddO, cuckooAdd, hm, hx, hins, setAdd_mem]
    · rcases hins : cfInsert s.cuckoo x with e | f'
      · right
        simp [cuckooAddO, cuckooAdd, hm, hins]
      · left
        simp [cuckooAddO, cuckooAdd, hm, hins, setAdd_mem]

/-! ### Contract instance: SortedArrayBinarySearchChecker -/

/-- Correctness of the binary-search loop on a strictly sorted list, for
any window satisfying the loop invariant: everything left of the window is
below `name`, everything right of it is above.  On `found` the name is in
the list; on `insertAt i` it is absent and `i` is its ordered insertion
point. -/
theorem binSearchGo_spec {α : Type} [LinearOrder α] (logins : List α)
    (name : α) (fuel left : Nat) (right : Int) (comps : Nat)
    (hfuel : (right + 1 - left).toNat < fuel)
    (hsorted : logins.Pairwise (· < ·))
    (hright : right < (logins.length : Int))
    (hleft : left ≤ logins.length)
    (hlow : ∀ k (hk : k < logins.length), k < left → logins[k] < name)
    (hhigh : ∀ k (hk : k < logins.length), right < (k : Int) →
      name < logins[k]) :
    ((binSearchGo logins name fuel left right comps).2 = .found →
      name ∈ logins) ∧
    (∀ i, (binSearchGo logins name fuel left right comps).2 = .insertAt i →
      name ∉ logins ∧ i ≤ logins.length ∧
      (∀ k (hk : k < logins.length), k < i → logins[k] < name) ∧
      (∀ k (hk : k < logins.length), i ≤ k → name < logins[k])) := by
  match fuel with
  | 0 => exact absurd hfuel (by omega)
  | n + 1 =>
  rw [binSearchGo]
  split
  case isTrue h =>
    have hmid : (left + right.toNat) / 2 < logins.length := by omega
    split
    case h_1 hget =>
      rw [List.getElem?_eq_getElem hmid] at hget
      exact absurd hget (by simp)
    case h_2 v hget =>
      rw [List.getElem?_eq_getElem hmid, Option.some.injEq] at hget
      rw [List.pairwise_iff_getElem] at hsorted
      split
      case isTrue hvn =>
        subst hvn
        constructor
        · intro _
          rw [← hget]
          exact List.getElem_mem hmid
        · intro i hi
          exact absurd hi (by simp)
      case isFalse hvn =>
        split
        case isTrue hvlt =>
          have hgn : logins[(left + right.toNat) / 2] < name := by
            rw [hget]
            exact hvlt
          refine binSearchGo_spec logins name n
            ((left + right.toNat) / 2 + 1) right (comps + 1) (by omega)
            (List.pairwise_iff_getElem.mpr hsorted) hright
            (by omega) ?_ hhigh
          intro k hk hklt
          rcases Nat.lt_or_ge k ((left + right.toNat) / 2) with hkm | hkm
          · exact lt_trans (hsorted k _ hk hmid hkm) hgn
          · have hke : k = (left + right.toNat) / 2 := by omega
            subst hke
            exact hgn
        case isFalse hvge =>
          have hnv : name < logins[(left + right.toNat) / 2] := by
            rw [hget]
            exact lt_of_le_of_ne (not_lt.mp hvge) (fun hn => hvn hn.symm)
          refine binSearchGo_spec logins name n left
            (((left + right.toNat) / 2 : Nat) - 1) (comps + 1) (by omega)
            (List.pairwise_iff_getElem.mpr hsorted) (by omega) hleft hlow ?_
          intro k hk hkgt
          rcases Nat.lt_or_ge ((left + right.toNat) / 2) k with hkm | hkm
          · exact lt_trans hnv (hsorted _ k hmid hk hkm)
          · have hke : k = (left + right.toNat) / 2 := by omega
            subst hke
            exact hnv
  case isFalse h =>
    constructor
    · intro hfound
      exact absurd hfound (by simp)
    · intro i hi
      simp only [BinResult.insertAt.injEq] at hi
      subst hi
      refine ⟨?_, hleft, fun k hk hklt => hlow k hk hklt,
        fun k hk hkge => hhigh k hk (by omega)⟩
      intro hmem
      rw [List.mem_iff_getElem] at hmem
      obtain ⟨k, hk, hkval⟩ := hmem
      rcases Nat.lt_or_ge k left with hkm | hkm
      · exact absurd hkval (ne_of_gt (hlow k hk hkm)).symm
      · exact absurd hkval (ne_of_lt (hhigh k hk (by omega))).symm
termination_by fuel

/-- The binary search as both operations invoke it: window `0 .. len - 1`,
comparison counter starting at 0. -/
theorem binSearch_spec {α : Type} [LinearOrder α] (logins : List α)
    (name : α) (hsorted : logins.Pairwise (· < ·)) :
    ((binSearchGo logins name (logins.length + 1) 0
        ((logins.length : Int) - 1) 0).2 = .found ↔
      name ∈ logins) ∧
    (∀ i, (binSearchGo logins name (logins.length + 1) 0
        ((logins.length : Int) - 1) 0).2 =
        .insertAt i →
      name ∉ logins ∧ i ≤ logins.length ∧
      (∀ k (hk : k < logins.length), k < i → logins[k] < name) ∧
      (∀ k (hk : k < logins.length), i ≤ k → name < logins[k])) := by
  have h := binSearchGo_spec logins name (logins.length + 1) 0
    ((logins.length : Int) - 1) 0 (by omega) hsorted (by omega) (by omega)
    (fun k hk hk0 => absurd hk0 (Nat.not_lt_zero k))
    (fun k hk hkgt => absurd hk (by omega))
  refine ⟨⟨h.1, ?_⟩, h.2⟩
  intro hmem
  rcases hres : (binSearchGo logins name (logins.length + 1) 0
        ((logins.length : Int) - 1) 0).2
    with _ | i
  · rfl
  · exact absurd hmem (h.2 i hres).1

/-- Ordered insertion at the point the binary search computes keeps the
stored sequence strictly sorted. -/
theorem sortedInsert_pairwise {α : Type} [LinearOrder α] (l : List α)
    (name : α) (i : Nat) (hs : l.Pairwise (· < ·))
    (hlow : ∀ k (hk : k < l.length), k < i → l[k] < name)
    (hhigh : ∀ k (hk : k < l.length), i ≤ k → name < l[k]) :
    (l.take i ++ name :: l.drop i).Pairwise (· < ·) := by
  have hdrop : ∀ b ∈ l.drop i, name < b := by
    intro b hb
    rw [List.mem_iff_getElem] at hb
    obtain ⟨k, hk, hbk⟩ := hb
    have hklen : k < (l.drop i).length := hk
    rw [List.length_drop] at hklen
    rw [List.getElem_drop] at hbk
    rw [← hbk]
    exact hhigh (i + k) (by omega) (Nat.le_add_right i k)
  have htake : ∀ a ∈ l.take i, a < name := by
    intro a ha
    rw [List.mem_iff_getElem] at ha
    obtain ⟨k, hk, hak⟩ := ha
    have hklen : k < (l.take i).length := hk
    rw [List.length_take] at hklen
    rw [List.getElem_take] at hak
    rw [← hak]
    exact hlow k (by omega) (by omega)
  rw [List.pairwise_append]
  refine ⟨List.Pairwise.sublist (List.take_sublist i l) hs, ?_, ?_⟩
  · rw [List.pairwise_cons]
    exact ⟨hdrop, List.Pairwise.sublist (List.drop_sublist i l) hs⟩
  · intro a ha b hb
    rcases List.mem_cons.mp hb with rfl | hb
    · exact htake a ha
    · exact lt_trans (htake a ha) (hdrop b hb)

theorem sortedInsert_mem {α : Type} (l : List α) (name : α) (i : Nat)
    (y : α) :
    y ∈ l.take i ++ name :: l.drop i ↔ (y ∈ l ∨ y = name) := by
  have hsplit : y ∈ l.take i ∨ y ∈ l.drop i ↔ y ∈ l := by
    rw [← List.mem_append, List.take_append_drop]
  simp only [List.mem_append, List.mem_cons]
  tauto

/-- `saAdd` with its boolean result mapped onto `AddOutcome` (this strategy
never fails). -/
def saAddO {α : Type} [LinearOrder α] (s : SortedArrayBinarySearchChecker α)
    (x : α) : SortedArrayBinarySearchChecker α × AddOutcome :=
  ((saAdd s x).1, if (saAdd s x).2 then .accepted else .duplicate)

/-- Replaying a trace on a fresh `SortedArrayBinarySearchChecker`. -/
def saRunOps {α : Type} [LinearOrder α] (ops : List (Op α)) :
    SortedArrayBinarySearchChecker α :=
  Trace.run saAddO saCheck saFresh ops

/-- The identifiers a fresh `SortedArrayBinarySearchChecker` accepts along
`ops`. -/
def saAccepted {α : Type} [LinearOrder α] (ops : List (Op α)) : List α :=
  Trace.accepted saAddO saCheck saFresh ops

/-- The sorted-array strategy's invariant: storage is strictly sorted. -/
def saInv {α : Type} [LinearOrder α]
    (s : SortedArrayBinarySearchChecker α) : Prop :=
  s.logins.Pairwise (· < ·)

theorem saContract {α : Type} [LinearOrder α] :
    Trace.Contract (α := α) saAddO saCheck saInv
      (fun s y => y ∈ s.logins) (fun s => s.login_count) := by
  constructor
  · intro s x hs
    rcases hres : binSearchGo s.logins x (s.logins.length + 1) 0
      ((s.logins.length : Int) - 1) 0
      with ⟨n, r⟩
    cases r with
    | found => simpa [saInv, saAddO, saAdd, hres] using hs
    | insertAt i =>
      obtain ⟨_, _, hlow, hhigh⟩ :=
        (binSearch_spec s.logins x hs).2 i (by rw [hres])
      simpa [saInv, saAddO, saAdd, hres] using
        sortedInsert_pairwise s.logins x i hs hlow hhigh
  · intro s x hs
    rcases hres : binSearchGo s.logins x (s.logins.length + 1) 0
      ((s.logins.length : Int) - 1) 0
      with ⟨n, r⟩
    cases r with
    | found => simpa [saInv, saCheck, hres] using hs
    | insertAt i => simpa [saInv, saCheck, hres] using hs
  · intro s x y
    rcases hres : binSearchGo s.logins x (s.logins.length + 1) 0
      ((s.logins.length : Int) - 1) 0
      with ⟨n, r⟩
    cases r <;> simp [saCheck, hres]
  · intro s x
    rcases hres : binSearchGo s.logins x (s.logins.length + 1) 0
      ((s.logins.length : Int) - 1) 0
      with ⟨n, r⟩
    cases r <;> simp [saCheck, hres]
  · intro s x hs
    rcases hres : binSearchGo s.logins x (s.logins.length + 1) 0
      ((s.logins.length : Int) - 1) 0
      with ⟨n, r⟩
    cases r with
    | found =>
      have hmem : x ∈ s.logins := (binSearch_spec s.logins x hs).1.mp
        (by rw [hres])
      simp [saCheck, hres, hmem]
    | insertAt i =>
      have hmem : x ∉ s.logins := ((binSearch_spec s.logins x hs).2 i
        (by rw [hres])).1
      simp [saCheck, hres, hmem]
  · intro s x hs hx
    have hfound : (binSearchGo s.logins x (s.logins.length + 1) 0
        ((s.logins.length : Int) - 1) 0).2 = .found := (binSearch_spec s.logins x hs).1.mpr hx
    rcases hres : binSearchGo s.logins x (s.logins.length + 1) 0
      ((s.logins.length : Int) - 1) 0
      with ⟨n, r⟩
    rw [hres] at hfound
    subst hfound
    simp [saAddO, saAdd, hres]
  · intro s x hs hx
    left
    rcases hres : binSearchGo s.logins x (s.logins.length + 1) 0
      ((s.logins.length : Int) - 1) 0
      with ⟨n, r⟩
    cases r with
    | found =>
      exact absurd ((binSearch_spec s.logins x hs).1.mp (by rw [hres])) hx
    | insertAt i =>
      simp only [saAddO, saAdd, hres, if_pos, if_true]
      refine ⟨trivial, fun y => ?_, trivial⟩
      exact sortedInsert_mem s.logins x i y

/-! ### Helper facts shared by the claim theorems -/

theorem saFresh_inv {α : Type} [LinearOrder α] : saInv (saFresh (α := α)) :=
  List.Pairwise.nil

theorem bloomFresh_inv {α : Type} (fp : List α → α → Bool) :
    bloomInv (bloomFresh fp) := fun y hy => absurd hy (List.not_mem_nil y)

theorem cuckooInit_inv {α : Type} (f h1 h2 : α → Nat) (c : Int) (e : ℚ) :
    cuckooInv (cuckooCheckerInit f h1 h2 c e) := by
  refine ⟨?_, ?_, fun y hy => absurd hy (List.not_mem_nil y)⟩
  · show (List.replicate 10000 ([] : List Nat)).length = 10000
    exact List.length_replicate 10000 []
  · show (0 : Nat) < 10000
    norm_num

theorem llAdd_true {α : Type} [DecidableEq α]
    (s : ListLinearSearchChecker α) (x : α) (hx : x ∉ s.logins) :
    (llAdd s x).2 = true := by
  have hscan : (linearScan s.logins x).2 = false := by
    simp [linearScan_found, hx]
  simp [llAdd, hscan]

theorem llAdd_dup {α : Type} [DecidableEq α]
    (s : ListLinearSearchChecker α) (x : α) (hx : x ∈ s.logins) :
    llAdd s x =
      ({ s with comparisons := s.comparisons + (linearScan s.logins x).1 },
        false) := by
  have hscan : (linearScan s.logins x).2 = true := by
    simp [linearScan_found, hx]
  simp [llAdd, hscan]

theorem htAdd_dup {α : Type} [DecidableEq α] (s : HashTableChecker α)
    (x : α) (hx : x ∈ s.logins) :
    htAdd s x = ({ s with comparisons := s.comparisons + 1 }, false) := by
  simp [htAdd, hx]

theorem saAdd_true {α : Type} [LinearOrder α]
    (s : SortedArrayBinarySearchChecker α) (x : α) (hs : saInv s)
    (hx : x ∉ s.logins) : (saAdd s x).2 = true := by
  rcases saContract.add_new s x hs hx with ⟨ho, _, _⟩ | ⟨ho, _, _⟩ <;>
    · cases hb : (saAdd s x).2
      · simp [saAddO, hb] at ho
      · rfl

theorem saAdd_dup {α : Type} [LinearOrder α]
    (s : SortedArrayBinarySearchChecker α) (x : α) (hs : saInv s)
    (hx : x ∈ s.logins) :
    saAdd s x =
      ({ s with comparisons := s.comparisons +
          (binSearchGo s.logins x (s.logins.length + 1) 0
      ((s.logins.length : Int) - 1) 0).1 },
        false) := by
  have hfound : (binSearchGo s.logins x (s.logins.length + 1) 0
      ((s.logins.length : Int) - 1) 0).2 = .found := (binSearch_spec s.logins x hs).1.mpr hx
  rcases hres : binSearchGo s.logins x (s.logins.length + 1) 0
      ((s.logins.length : Int) - 1) 0
    with ⟨n, r⟩
  rw [hres] at hfound
  subst hfound
  simp [saAdd, hres]

theorem bloomAdd_true {α : Type} [DecidableEq α] (s : BloomFilterChecker α)
    (x : α) (hx : x ∉ s.logins) : (bloomAdd s x).2 = true := by
  by_cases hm : bloomMightContain s.bloom x <;> simp [bloomAdd, hm, hx]

theorem bloomAdd_dup {α : Type} [DecidableEq α] (s : BloomFilterChecker α)
    (x : α) (hs : bloomInv s) (hx : x ∈ s.logins) :
    bloomAdd s x =
      ({ s with comparisons := s.comparisons + 1 + 1 }, false) := by
  have hm : bloomMightContain s.bloom x = true := by
    simp [bloomMightContain, hs x hx]
  simp [bloomAdd, hm, hx]

theorem cuckooBucket_init {α : Type} (f h1 h2 : α → Nat) (c : Int) (e : ℚ)
    (i : Nat) : cfBucket (cuckooCheckerInit f h1 h2 c e).cuckoo i = [] := by
  show (List.replicate 10000 ([] : List Nat)).getD i [] = []
  rcases Nat.lt_or_ge i 10000 with hi | hi
  · rw [List.getD_eq_getElem?_getD, List.getElem?_replicate, if_pos hi]
    rfl
  · rw [List.getD_eq_getElem?_getD,
      List.getElem?_eq_none (by rw [List.length_replicate]; exact hi)]
    rfl

theorem cuckooInit_add {α : Type} [DecidableEq α] (f h1 h2 : α → Nat)
    (c : Int) (e : ℚ) (x : α) :
    (cuckooAdd (cuckooCheckerInit f h1 h2 c e) x).2 = Except.ok true := by
  have hm : cfMightContain (cuckooCheckerInit f h1 h2 c e).cuckoo x
      = false := by
    unfold cfMightContain
    rw [cuckooBucket_init, cuckooBucket_init]
    simp
  have hbs : (cuckooCheckerInit (α := α) f h1 h2 c e).cuckoo.bucket_size
      = 4 := rfl
  rcases hins : cfInsert (cuckooCheckerInit f h1 h2 c e).cuckoo x
    with e' | f'
  · exfalso
    unfold cfInsert at hins
    rw [cuckooBucket_init, hbs] at hins
    norm_num at hins
    exact Except.noConfusion hins
  · simp [cuckooAdd, hm, hins]

theorem cuckooAdd_dup {α : Type} [DecidableEq α]
    (s : CuckooFilterChecker α) (x : α) (hs : cuckooInv s)
    (hx : x ∈ s.logins) :
    cuckooAdd s x =
      ({ s with comparisons := s.comparisons + 1 + 1 }, .ok false) := by
  have hm : cfMightContain s.cuckoo x = true := hs.2.2 x hx
  simp [cuckooAdd, hm, hx]

/-! ### Claim theorems -/

/-- C1: for every strategy and every identifier `x`, after any sequence of
`add_login` / `check_exists` operations on a fresh Checker, `check_exists x`
returns true iff some earlier `add_login x` returned true — so `x` tests
false while never added and true at every point after acceptance, with no
externally visible false positives or negatives for the filter-backed
strategies (any false-positive oracle `bfp`, any filter hashes
`cfp`,`ch1`,`ch2`). -/
theorem claim_C1 {α : Type} [LinearOrder α] (ops : List (Op α)) (x : α)
    (bfp : List α → α → Bool) (cfp ch1 ch2 : α → Nat) :
    ((llCheck (llRunOps ops) x).2 = true ↔ x ∈ llAccepted ops) ∧
    ((saCheck (saRunOps ops) x).2 = true ↔ x ∈ saAccepted ops) ∧
    ((htCheck (htRunOps ops) x).2 = true ↔ x ∈ htAccepted ops) ∧
    ((bloomCheck (bloomRunOps bfp ops) x).2 = true ↔
      x ∈ bloomAccepted bfp ops) ∧
    ((cuckooCheck (cuckooRunOps cfp ch1 ch2 ops) x).2 = true ↔
      x ∈ cuckooAccepted cfp ch1 ch2 ops) := by
  refine ⟨?_, ?_, ?_, ?_, ?_⟩
  · rw [llRunOps, llAccepted, llContract.check_run ops llFresh trivial x]
    simp [llFresh]
  · rw [saRunOps, saAccepted,
      saContract.check_run ops saFresh saFresh_inv x]
    simp [saFresh]
  · rw [htRunOps, htAccepted, htContract.check_run ops htFresh trivial x]
    simp [htFresh]
  · rw [bloomRunOps, bloomAccepted,
      bloomContract.check_run ops (bloomFresh bfp) (bloomFresh_inv bfp) x]
    simp [bloomFresh]
  · rw [cuckooRunOps, cuckooAccepted,
      cuckooContract.check_run ops (cuckooFresh cfp ch1 ch2)
        (cuckooInit_inv cfp ch1 ch2 1000000 (1 / 1000)) x]
    have hlog : (cuckooFresh cfp ch1 ch2).logins = ([] : List α) := rfl
    simp [hlog]

/-- C2: for every strategy, the first `add_login x` on a freshly
constructed Checker returns true, and every subsequent `add_login x` on the
same Checker returns false, whatever operations (`ops`) are interleaved. -/
theorem claim_C2 {α : Type} [LinearOrder α] (x : α) (ops : List (Op α))
    (bfp : List α → α → Bool) (cfp ch1 ch2 : α → Nat) :
    ((llAdd (llFresh (α := α)) x).2 = true ∧
      (llAdd (Trace.run llAddO llCheck (llAdd llFresh x).1 ops) x).2 =
        false) ∧
    ((saAdd (saFresh (α := α)) x).2 = true ∧
      (saAdd (Trace.run saAddO saCheck (saAdd saFresh x).1 ops) x).2 =
        false) ∧
    ((htAdd (htFresh (α := α)) x).2 = true ∧
      (htAdd (Trace.run htAddO htCheck (htAdd htFresh x).1 ops) x).2 =
        false) ∧
    ((bloomAdd (bloomFresh bfp) x).2 = true ∧
      (bloomAdd (Trace.run bloomAddO bloomCheck
        (bloomAdd (bloomFresh bfp) x).1 ops) x).2 = false) ∧
    ((cuckooAdd (cuckooFresh cfp ch1 ch2) x).2 = Except.ok true ∧
      (cuckooAdd (Trace.run cuckooAddO cuckooCheck
        (cuckooAdd (cuckooFresh cfp ch1 ch2) x).1 ops) x).2 =
        Except.ok false) := by
  refine ⟨⟨llAdd_true llFresh x (by simp [llFresh]), ?_⟩,
    ⟨saAdd_true saFresh x saFresh_inv (by simp [saFresh]), ?_⟩,
    ⟨by simp [htAdd, htFresh], ?_⟩,
    ⟨bloomAdd_true (bloomFresh bfp) x (by simp [bloomFresh]), ?_⟩,
    ⟨cuckooInit_add cfp ch1 ch2 1000000 (1 / 1000) x, ?_⟩⟩
  · have h1 : x ∈ (llAdd (llFresh (α := α)) x).1.logins := by
      simp [llAdd, llFresh, linearScan]
    have hmem := (llContract.mem_run ops (llAdd llFresh x).1 trivial x).mpr
      (Or.inl h1)
    rw [llAdd_dup _ x hmem]
  · have ho : (saAddO (saFresh (α := α)) x).2 = .accepted := by
      simp [saAddO, saAdd_true saFresh x saFresh_inv (by simp [saFresh])]
    have h1 : x ∈ (saAdd (saFresh (α := α)) x).1.logins :=
      (saContract.add_mem saFresh x saFresh_inv x).mpr (Or.inr ⟨ho, rfl⟩)
    have hs1 : saInv (saAdd (saFresh (α := α)) x).1 :=
      saContract.inv_add saFresh x saFresh_inv
    have hmem := (saContract.mem_run ops (saAdd saFresh x).1 hs1 x).mpr
      (Or.inl h1)
    rw [saAdd_dup _ x (saContract.run_inv ops _ hs1) hmem]
  · have h1 : x ∈ (htAdd (htFresh (α := α)) x).1.logins := by
      simp [htAdd, htFresh, setAdd]
    have hmem := (htContract.mem_run ops (htAdd htFresh x).1 trivial x).mpr
      (Or.inl h1)
    rw [htAdd_dup _ x hmem]
  · have h1 : x ∈ (bloomAdd (bloomFresh bfp) x).1.logins := by
      have hlog : (bloomFresh bfp).logins = ([] : List α) := rfl
      by_cases hm : bloomMightContain (bloomFresh bfp).bloom x <;>
        simp [bloomAdd, hm, hlog, setAdd_mem]
    have hs1 : bloomInv (bloomAdd (bloomFresh bfp) x).1 :=
      bloomContract.inv_add (bloomFresh bfp) x (bloomFresh_inv bfp)
    have hmem := (bloomContract.mem_run ops (bloomAdd (bloomFresh bfp) x).1
      hs1 x).mpr (Or.inl h1)
    rw [bloomAdd_dup _ x (bloomContract.run_inv ops _ hs1) hmem]
  · have hok : (cuckooAdd (cuckooFresh cfp ch1 ch2) x).2 = Except.ok true :=
      cuckooInit_add cfp ch1 ch2 1000000 (1 / 1000) x
    have ho : (cuckooAddO (cuckooFresh cfp ch1 ch2) x).2 = .accepted := by
      simp [cuckooAddO, hok]
    have h1 : x ∈ (cuckooAdd (cuckooFresh cfp ch1 ch2) x).1.logins :=
      (cuckooContract.add_mem (cuckooFresh cfp ch1 ch2) x
        (cuckooInit_inv cfp ch1 ch2 1000000 (1 / 1000)) x).mpr
        (Or.inr ⟨ho, rfl⟩)
    have hs1 : cuckooInv (cuckooAdd (cuckooFresh cfp ch1 ch2) x).1 :=
      cuckooContract.inv_add (cuckooFresh cfp ch1 ch2) x
        (cuckooInit_inv cfp ch1 ch2 1000000 (1 / 1000))
    have hmem := (cuckooContract.mem_run ops
      (cuckooAdd (cuckooFresh cfp ch1 ch2) x).1 hs1 x).mpr (Or.inl h1)
    rw [cuckooAdd_dup _ x (cuckooContract.run_inv ops _ hs1) hmem]

/-- C3: when the fingerprint-table insertion cannot place an item, the
capacity-exceeded failure propagates out of `add_login` as a distinct
signal (never as the duplicate/accepted boolean); in particular in the
spec's scenario — bucket capacity 4, table size 1, nine distinct
identifiers all hashing to the same bucket pair — the 9th insertion
signals capacity-exceeded. -/
theorem claim_C3 :
    (∀ (α : Type) [DecidableEq α] (s : CuckooFilterChecker α) (x : α),
      x ∉ s.logins → cfInsert s.cuckoo x = .error .capacityExceeded →
      (cuckooAdd s x).2 = .error .capacityExceeded) ∧
    (cuckooAdd (Trace.run cuckooAddO cuckooCheck
      (⟨0, 0, ⟨1, 4, 8, id, fun _ => 0, fun _ => 0, [[]]⟩, []⟩ :
        CuckooFilterChecker Nat)
      [Op.add 1, Op.add 2, Op.add 3, Op.add 4, Op.add 5, Op.add 6,
        Op.add 7, Op.add 8]) 9).2 = .error .capacityExceeded := by
  constructor
  · intro α _ s x hx hins
    by_cases hm : cfMightContain s.cuckoo x <;>
      simp [cuckooAdd, hm, hx, hins]
  · rfl

/-- Witness for C3: a table whose only bucket pair is full rejects the next
distinct identifier with the capacity-exceeded signal. -/
theorem claim_C3_witness :
    (cuckooAdd (⟨0, 0, ⟨1, 4, 8, id, fun _ => 0, fun _ => 0,
      [[1, 2, 3, 4]]⟩, [1, 2, 3, 4]⟩ : CuckooFilterChecker Nat) 9).2 =
      .error .capacityExceeded :=
  claim_C3.1 Nat _ 9 (by decide) rfl

/-- C4: for every strategy, after any operation sequence on a fresh
Checker, `login_count` equals the number of distinct identifiers whose
`add_login` returned true. -/
theorem claim_C4 {α : Type} [LinearOrder α] (ops : List (Op α))
    (bfp : List α → α → Bool) (cfp ch1 ch2 : α → Nat) :
    (llRunOps (α := α) ops).login_count =
      (llAccepted ops).dedup.length ∧
    (saRunOps (α := α) ops).login_count =
      (saAccepted ops).dedup.length ∧
    (htRunOps (α := α) ops).login_count =
      (htAccepted ops).dedup.length ∧
    (bloomRunOps bfp ops).login_count =
      (bloomAccepted bfp ops).dedup.length ∧
    (cuckooRunOps cfp ch1 ch2 ops).login_count =
      (cuckooAccepted cfp ch1 ch2 ops).dedup.length := by
  refine ⟨?_, ?_, ?_, ?_, ?_⟩
  · have hnd := (llContract.accepted_nodup ops llFresh trivial).1
    rw [llRunOps, llAccepted, llContract.count_run ops llFresh trivial,
      List.dedup_eq_self.mpr hnd]
    simp [llFresh]
  · have hnd := (saContract.accepted_nodup ops saFresh saFresh_inv).1
    rw [saRunOps, saAccepted,
      saContract.count_run ops saFresh saFresh_inv,
      List.dedup_eq_self.mpr hnd]
    simp [saFresh]
  · have hnd := (htContract.accepted_nodup ops htFresh trivial).1
    rw [htRunOps, htAccepted, htContract.count_run ops htFresh trivial,
      List.dedup_eq_self.mpr hnd]
    simp [htFresh]
  · have hnd := (bloomContract.accepted_nodup ops (bloomFresh bfp)
      (bloomFresh_inv bfp)).1
    rw [bloomRunOps, bloomAccepted, bloomContract.count_run ops
      (bloomFresh bfp) (bloomFresh_inv bfp), List.dedup_eq_self.mpr hnd]
    simp [bloomFresh]
  · have hnd := (cuckooContract.accepted_nodup ops
      (cuckooFresh cfp ch1 ch2)
      (cuckooInit_inv cfp ch1 ch2 1000000 (1 / 1000))).1
    rw [cuckooRunOps, cuckooAccepted, cuckooContract.count_run ops
      (cuckooFresh cfp ch1 ch2)
      (cuckooInit_inv cfp ch1 ch2 1000000 (1 / 1000)),
      List.dedup_eq_self.mpr hnd]
    have hcount : (cuckooFresh cfp ch1 ch2).login_count = 0 := rfl
    simp [hcount]

/-- C5: the sorted-array strategy's storage is in non-decreasing order
after any sequence of operations from a fresh Checker (hence after every
successful add). -/
theorem claim_C5 {α : Type} [LinearOrder α] (ops : List (Op α)) :
    ((saRunOps ops).logins).Pairwise (· ≤ ·) := by
  have h : saInv (saRunOps ops) :=
    saContract.run_inv ops saFresh saFresh_inv
  exact List.Pairwise.imp (fun hab => le_of_lt hab) h

/-- C6 (amended): the Bloom strategy's construction fails exactly on a
malformed configuration (non-positive capacity or error rate outside
(0,1); the validation lives in the filter library, modelled from the
spec), while `CuckooFilterChecker.__init__` ignores both parameters and
always constructs the same fixed-configuration checker, so it does not
fail at construction. -/
theorem claim_C6 {α : Type} (bfp : List α → α → Bool)
    (cfp ch1 ch2 : α → Nat) (c : Int) (e : ℚ) :
    (bloomCheckerInit (α := α) bfp c e = .error .malformedConfig ↔
      ¬ (0 < e ∧ e < 1 ∧ 0 < c)) ∧
    cuckooCheckerInit (α := α) cfp ch1 ch2 c e =
      cuckooCheckerInit cfp ch1 ch2 1000000 (1 / 1000) := by
  constructor
  · unfold bloomCheckerInit bloomFilterNew
    by_cases hc : 0 < e ∧ e < 1 ∧ 0 < c <;> simp [hc]
  · rfl

/-- Counterexample to C6 as stated: constructing a `CuckooFilterChecker`
with non-positive capacity 0 and out-of-range error rate 2 does not fail —
it yields the very checker the default configuration yields, and its first
`add_login` succeeds normally. -/
theorem claim_C6_counterexample :
    cuckooCheckerInit (α := Nat) id (fun _ => 0) (fun _ => 0) 0 2 =
      cuckooCheckerInit id (fun _ => 0) (fun _ => 0) 1000000 (1 / 1000) ∧
    (cuckooAdd (cuckooCheckerInit (α := Nat) id (fun _ => 0) (fun _ => 0)
      0 2) 5).2 = Except.ok true :=
  ⟨rfl, cuckooInit_add id (fun _ => 0) (fun _ => 0) 0 2 5⟩

/-- C7: for both filter-backed strategies, `check_exists` charges exactly
one comparison and answers false when the filter reports absence, and
charges exactly two and answers with the backing set when the filter
reports possible membership. -/
theorem claim_C7 {α : Type} [DecidableEq α] (s : BloomFilterChecker α)
    (t : CuckooFilterChecker α) (x : α) :
    ((bloomCheck s x).1.comparisons =
        s.comparisons + (if bloomMightContain s.bloom x then 2 else 1) ∧
      (bloomCheck s x).2 =
        (bloomMightContain s.bloom x && decide (x ∈ s.logins))) ∧
    ((cuckooCheck t x).1.comparisons =
        t.comparisons + (if cfMightContain t.cuckoo x then 2 else 1) ∧
      (cuckooCheck t x).2 =
        (cfMightContain t.cuckoo x && decide (x ∈ t.logins))) := by
  refine ⟨⟨?_, ?_⟩, ⟨?_, ?_⟩⟩
  · by_cases hm : bloomMightContain s.bloom x <;> simp [bloomCheck, hm]
  · by_cases hm : bloomMightContain s.bloom x <;> simp [bloomCheck, hm]
  · by_cases hm : cfMightContain t.cuckoo x <;> simp [cuckooCheck, hm]
  · by_cases hm : cfMightContain t.cuckoo x <;> simp [cuckooCheck, hm]

/-- C8: for every strategy, calling `add_login` on an identifier already
present returns false (for the Cuckoo strategy, `ok false`) and leaves the
stored identifiers, the login count, and the filter state unchanged (only
the comparison counter moves, as the same spec sentence requires). -/
theorem claim_C8 {α : Type} [LinearOrder α] (ops : List (Op α)) (x : α)
    (bfp : List α → α → Bool) (cfp ch1 ch2 : α → Nat) :
    (x ∈ (llRunOps ops).logins →
      (llAdd (llRunOps ops) x).2 = false ∧
      (llAdd (llRunOps ops) x).1.logins = (llRunOps ops).logins ∧
      (llAdd (llRunOps ops) x).1.login_count =
        (llRunOps ops).login_count) ∧
    (x ∈ (saRunOps ops).logins →
      (saAdd (saRunOps ops) x).2 = false ∧
      (saAdd (saRunOps ops) x).1.logins = (saRunOps ops).logins ∧
      (saAdd (saRunOps ops) x).1.login_count =
        (saRunOps ops).login_count) ∧
    (x ∈ (htRunOps ops).logins →
      (htAdd (htRunOps ops) x).2 = false ∧
      (htAdd (htRunOps ops) x).1.logins = (htRunOps ops).logins ∧
      (htAdd (htRunOps ops) x).1.login_count =
        (htRunOps ops).login_count) ∧
    (x ∈ (bloomRunOps bfp ops).logins →
      (bloomAdd (bloomRunOps bfp ops) x).2 = false ∧
      (bloomAdd (bloomRunOps bfp ops) x).1.logins =
        (bloomRunOps bfp ops).logins ∧
      (bloomAdd (bloomRunOps bfp ops) x).1.login_count =
        (bloomRunOps bfp ops).login_count ∧
      (bloomAdd (bloomRunOps bfp ops) x).1.bloom =
        (bloomRunOps bfp ops).bloom) ∧
    (x ∈ (cuckooRunOps cfp ch1 ch2 ops).logins →
      (cuckooAdd (cuckooRunOps cfp ch1 ch2 ops) x).2 = Except.ok false ∧
      (cuckooAdd (cuckooRunOps cfp ch1 ch2 ops) x).1.logins =
        (cuckooRunOps cfp ch1 ch2 ops).logins ∧
      (cuckooAdd (cuckooRunOps cfp ch1 ch2 ops) x).1.login_count =
        (cuckooRunOps cfp ch1 ch2 ops).login_count ∧
      (cuckooAdd (cuckooRunOps cfp ch1 ch2 ops) x).1.cuckoo =
        (cuckooRunOps cfp ch1 ch2 ops).cuckoo) := by
  refine ⟨?_, ?_, ?_, ?_, ?_⟩
  · intro hx
    rw [llAdd_dup _ x hx]
    exact ⟨rfl, rfl, rfl⟩
  · intro hx
    have hinv : saInv (saRunOps ops) :=
      saContract.run_inv ops saFresh saFresh_inv
    rw [saAdd_dup _ x hinv hx]
    exact ⟨rfl, rfl, rfl⟩
  · intro hx
    rw [htAdd_dup _ x hx]
    exact ⟨rfl, rfl, rfl⟩
  · intro hx
    have hinv : bloomInv (bloomRunOps bfp ops) :=
      bloomContract.run_inv ops (bloomFresh bfp) (bloomFresh_inv bfp)
    rw [bloomAdd_dup _ x hinv hx]
    exact ⟨rfl, rfl, rfl, rfl⟩
  · intro hx
    have hinv : cuckooInv (cuckooRunOps cfp ch1 ch2 ops) :=
      cuckooContract.run_inv ops (cuckooFresh cfp ch1 ch2)
        (cuckooInit_inv cfp ch1 ch2 1000000 (1 / 1000))
    rw [cuckooAdd_dup _ x hinv hx]
    exact ⟨rfl, rfl, rfl, rfl⟩

/-- Witness for C8: after accepting identifier 0, re-adding 0 is rejected
and changes nothing but the comparison counter, in all five strategies. -/
theorem claim_C8_witness :
    ((llAdd (llRunOps [Op.add 0]) 0).2 = false ∧
      (llAdd (llRunOps [Op.add 0]) 0).1.logins =
        (llRunOps [Op.add 0]).logins ∧
      (llAdd (llRunOps [Op.add 0]) 0).1.login_count =
        (llRunOps [Op.add 0]).login_count) ∧
    ((saAdd (saRunOps [Op.add 0]) 0).2 = false ∧
      (saAdd (saRunOps [Op.add 0]) 0).1.logins =
        (saRunOps [Op.add 0]).logins ∧
      (saAdd (saRunOps [Op.add 0]) 0).1.login_count =
        (saRunOps [Op.add 0]).login_count) ∧
    ((htAdd (htRunOps [Op.add 0]) 0).2 = false ∧
      (htAdd (htRunOps [Op.add 0]) 0).1.logins =
        (htRunOps [Op.add 0]).logins ∧
      (htAdd (htRunOps [Op.add 0]) 0).1.login_count =
        (htRunOps [Op.add 0]).login_count) ∧
    ((bloomAdd (bloomRunOps (fun _ _ => false) [Op.add 0]) 0).2 = false ∧
      (bloomAdd (bloomRunOps (fun _ _ => false) [Op.add 0]) 0).1.logins =
        (bloomRunOps (fun _ _ => false) [Op.add 0]).logins ∧
      (bloomAdd (bloomRunOps (fun _ _ => false)
        [Op.add 0]) 0).1.login_count =
        (bloomRunOps (fun _ _ => false) [Op.add 0]).login_count ∧
      (bloomAdd (bloomRunOps (fun _ _ => false) [Op.add 0]) 0).1.bloom =
        (bloomRunOps (fun _ _ => false) [Op.add 0]).bloom) ∧
    ((cuckooAdd (cuckooRunOps id id id [Op.add 0]) 0).2 =
        Except.ok false ∧
      (cuckooAdd (cuckooRunOps id id id [Op.add 0]) 0).1.logins =
        (cuckooRunOps id id id [Op.add 0]).logins ∧
      (cuckooAdd (cuckooRunOps id id id [Op.add 0]) 0).1.login_count =
        (cuckooRunOps id id id [Op.add 0]).login_count ∧
      (cuckooAdd (cuckooRunOps id id id [Op.add 0]) 0).1.cuckoo =
        (cuckooRunOps id id id [Op.add 0]).cuckoo) := by
  have h := claim_C8 (α := Nat) [Op.add 0] 0 (fun _ _ => false) id id id
  exact ⟨h.1 (by decide), h.2.1 (by decide), h.2.2.1 (by decide),
    h.2.2.2.1 (by decide), h.2.2.2.2 (by decide)⟩

/-- C9 (implicit): the `CuckooFilterChecker` constructor ignores its
`capacity` and `error_rate` arguments entirely: every argument pair yields
the identical checker, whose filter is always configured with table size
10000, bucket size 4, and 8-bit fingerprints. -/
theorem claim_C9 {α : Type} (cfp ch1 ch2 : α → Nat) (c c' : Int)
    (e e' : ℚ) :
    cuckooCheckerInit cfp ch1 ch2 c e =
      cuckooCheckerInit cfp ch1 ch2 c' e' ∧
    (cuckooCheckerInit cfp ch1 ch2 c e).cuckoo.table_size = 10000 ∧
    (cuckooCheckerInit cfp ch1 ch2 c e).cuckoo.bucket_size = 4 ∧
    (cuckooCheckerInit cfp ch1 ch2 c e).cuckoo.fingerprint_size = 8 :=
  ⟨rfl, rfl, rfl, rfl⟩

/-- C10 (implicit): when the filter insert fails inside
`CuckooFilterChecker.add_login` on a reachable state, the failure
propagates before the backing set and the login count are touched: the
identifier is not recorded, the filter is unchanged, and only the
comparison counter (already charged for the probes performed) differs. -/
theorem claim_C10 {α : Type} [DecidableEq α] (cfp ch1 ch2 : α → Nat)
    (ops : List (Op α)) (x : α) (err : CapacityExceeded)
    (hfail : (cuckooAdd (cuckooRunOps cfp ch1 ch2 ops) x).2 =
      Except.error err) :
    (cuckooAdd (cuckooRunOps cfp ch1 ch2 ops) x).1.logins =
      (cuckooRunOps cfp ch1 ch2 ops).logins ∧
    x ∉ (cuckooAdd (cuckooRunOps cfp ch1 ch2 ops) x).1.logins ∧
    (cuckooAdd (cuckooRunOps cfp ch1 ch2 ops) x).1.login_count =
      (cuckooRunOps cfp ch1 ch2 ops).login_count ∧
    (cuckooAdd (cuckooRunOps cfp ch1 ch2 ops) x).1.cuckoo =
      (cuckooRunOps cfp ch1 ch2 ops).cuckoo ∧
    (cuckooAdd (cuckooRunOps cfp ch1 ch2 ops) x).1.comparisons =
      (cuckooRunOps cfp ch1 ch2 ops).comparisons +
        (if cfMightContain (cuckooRunOps cfp ch1 ch2 ops).cuckoo x
          then 2 else 1) := by
  have hinv : cuckooInv (cuckooRunOps cfp ch1 ch2 ops) :=
    cuckooContract.run_inv ops (cuckooFresh cfp ch1 ch2)
      (cuckooInit_inv cfp ch1 ch2 1000000 (1 / 1000))
  by_cases hx : x ∈ (cuckooRunOps cfp ch1 ch2 ops).logins
  · rw [cuckooAdd_dup _ x hinv hx] at hfail
    exact Except.noConfusion hfail
  · by_cases hm : cfMightContain (cuckooRunOps cfp ch1 ch2 ops).cuckoo x
    · rcases hins : cfInsert (cuckooRunOps cfp ch1 ch2 ops).cuckoo x
        with e' | f'
      · have hadd : cuckooAdd (cuckooRunOps cfp ch1 ch2 ops) x =
            ({ cuckooRunOps cfp ch1 ch2 ops with comparisons :=
              (cuckooRunOps cfp ch1 ch2 ops).comparisons + 1 + 1 },
              .error e') := by
          simp [cuckooAdd, hm, hx, hins]
        rw [hadd]
        exact ⟨rfl, hx, rfl, rfl, by simp [hm]⟩
      · have hadd : (cuckooAdd (cuckooRunOps cfp ch1 ch2 ops) x).2 =
            .ok true := by
          simp [cuckooAdd, hm, hx, hins]
        rw [hadd] at hfail
        exact Except.noConfusion hfail
    · rcases hins : cfInsert (cuckooRunOps cfp ch1 ch2 ops).cuckoo x
        with e' | f'
      · have hadd : cuckooAdd (cuckooRunOps cfp ch1 ch2 ops) x =
            ({ cuckooRunOps cfp ch1 ch2 ops with comparisons :=
              (cuckooRunOps cfp ch1 ch2 ops).comparisons + 1 },
              .error e') := by
          simp [cuckooAdd, hm, hins]
        rw [hadd]
        exact ⟨rfl, hx, rfl, rfl, by simp [hm]⟩
      · have hadd : (cuckooAdd (cuckooRunOps cfp ch1 ch2 ops) x).2 =
            .ok true := by
          simp [cuckooAdd, hm, hins]
        rw [hadd] at hfail
        exact Except.noConfusion hfail

/-- Witness for C10: with both candidate buckets at index 0 and bucket
capacity 4, the fifth distinct identifier's add fails and leaves the
backing set, the count, and the table as they were. -/
theorem claim_C10_witness :
    (cuckooAdd (cuckooRunOps id (fun _ => 0) (fun _ => 0)
      [Op.add 1, Op.add 2, Op.add 3, Op.add 4]) 5).1.logins =
      (cuckooRunOps id (fun _ => 0) (fun _ => 0)
        [Op.add 1, Op.add 2, Op.add 3, Op.add 4]).logins ∧
    5 ∉ (cuckooAdd (cuckooRunOps id (fun _ => 0) (fun _ => 0)
      [Op.add 1, Op.add 2, Op.add 3, Op.add 4]) 5).1.logins ∧
    (cuckooAdd (cuckooRunOps id (fun _ => 0) (fun _ => 0)
      [Op.add 1, Op.add 2, Op.add 3, Op.add 4]) 5).1.login_count =
      (cuckooRunOps id (fun _ => 0) (fun _ => 0)
        [Op.add 1, Op.add 2, Op.add 3, Op.add 4]).login_count ∧
    (cuckooAdd (cuckooRunOps id (fun _ => 0) (fun _ => 0)
      [Op.add 1, Op.add 2, Op.add 3, Op.add 4]) 5).1.cuckoo =
      (cuckooRunOps id (fun _ => 0) (fun _ => 0)
        [Op.add 1, Op.add 2, Op.add 3, Op.add 4]).cuckoo ∧
    (cuckooAdd (cuckooRunOps id (fun _ => 0) (fun _ => 0)
      [Op.add 1, Op.add 2, Op.add 3, Op.add 4]) 5).1.comparisons =
      (cuckooRunOps id (fun _ => 0) (fun _ => 0)
        [Op.add 1, Op.add 2, Op.add 3, Op.add 4]).comparisons +
        (if cfMightContain (cuckooRunOps id (fun _ => 0) (fun _ => 0)
          [Op.add 1, Op.add 2, Op.add 3, Op.add 4]).cuckoo 5
          then 2 else 1) :=
  claim_C10 id (fun _ => 0) (fun _ => 0)
    [Op.add 1, Op.add 2, Op.add 3, Op.add 4] 5 .capacityExceeded rfl

end LoginCheck
